import Mathlib

/-!
Shallow embedding of the background job orchestration and live-progress
streaming core of the open-filament-database web UI:

* `src/webui/src/lib/server/jobManager.ts` (job registry, validation lock,
  cleanup sweeper),
* `src/webui/src/lib/server/validationTrigger.ts` and
  `src/webui/src/routes/api/validate/+server.ts` (validation launcher),
* the sort launcher and the per-job SSE stream endpoint.

JS strings are embedded as `List Char`; `JSON.parse` is a JS builtin and is
embedded as an arbitrary parameter `p : Str → Option Json`, where `Json`
records exactly the observations the code makes on a parsed value (the
`type` field, presence of the `errors` / `stats` fields) plus the raw text
as identity.  Stateful code is embedded as explicit state passing: the
closure-local variables of each launch (`stdoutBuffer`, `stderrBuffer`,
`finalResult`) live in `LaunchState` / `LaunchCtl`, the process-wide
mutable state (`validationLock`, `activeJobs`) in `GlobalState`, and the
asynchronous callbacks (`data`, `error`, `close`, the sweeper tick) are the
actions of a small-step transition system.  Job records are heap-allocated
(`heap : List (Nat × Job)`) and the registry maps ids to references, so
that a callback closure keeps mutating its own record even after the
registry entry was deleted or overwritten — exactly as in JS.
-/

/-- JS strings, embedded as lists of characters. -/
abbrev Str := List Char

/-- Leading-whitespace strip, one half of JS `String.prototype.trim`. -/
def trimLeft : Str → Str
  | [] => []
  | c :: r => if c.isWhitespace then trimLeft r else c :: r

/-- JS `String.prototype.trim`: strip leading and trailing whitespace. -/
def trim (s : Str) : Str := (trimLeft (trimLeft s.reverse).reverse)

/-- The observable shape of a `JSON.parse` result, as inspected by the code:
`parsed.type` (string-valued field, if present), whether `parsed.errors` and
`parsed.stats` are defined, and the raw text as value identity. -/
structure Json where
  type : Option Str := none
  errors : Bool := false
  stats : Bool := false
  raw : Str := []
deriving DecidableEq, Repr

/-- `Job.type` in `jobManager.ts`: `'validation' | 'sort'`. -/
inductive JobType
  | validation
  | sort
deriving DecidableEq, Repr

/-- `Job.status` in `jobManager.ts`: `'running' | 'complete' | 'error'`. -/
inductive JobStatus
  | running
  | complete
  | error
deriving DecidableEq, Repr

/-- The `message` strings pushed with error events, kept symbolic:
spawn failure (`Failed to spawn validation process: ...`), abnormal exit
(`... process exited with code ${code}`), sweeper timeout
(`Job timed out after 30 minutes`). -/
inductive ErrMsg
  | spawnFailed (m : Str)
  | exitedWithCode (c : Option Int)
  | timedOut
deriving DecidableEq, Repr

/-- The event objects pushed onto `job.events`: parsed progress lines,
the synthetic `{type:'complete', result}` event, and
`{type:'error', message, stderr?}` events. -/
inductive Event
  | progress (j : Json)
  | complete (result : Option Json)
  | error (message : ErrMsg) (stderr : Option Str)
deriving DecidableEq, Repr

/-- The `Job` interface of `jobManager.ts`.  `process` is the opaque child
process handle, embedded as the launch reference number. -/
structure Job where
  id : Str
  type : JobType
  startTime : Nat
  status : JobStatus
  events : List Event
  process : Option Nat := none
  result : Option Json := none
  endTime : Option Nat := none
deriving DecidableEq, Repr

/-- The closure-local state of one launch inside `POST /api/validate`
(resp. the sort `POST`): the mutated `job` record together with the
`stdoutBuffer`, `stderrBuffer` and `finalResult` local variables. -/
structure LaunchState where
  job : Job
  stdoutBuffer : Str := []
  stderrBuffer : Str := []
  finalResult : Option Json := none
deriving DecidableEq, Repr

/-- JS `buffer.split('\n')` followed by `lines.pop() || ''`: the complete
lines (first component) and the trailing segment after the last newline
(second component, the new rolling buffer). -/
def lineSplit : Str → List Str × Str
  | [] => ([], [])
  | c :: r =>
    let p := lineSplit r
    if c = '\n' then ([] :: p.1, p.2)
    else
      match p.1 with
      | [] => ([], c :: p.2)
      | l :: ls => ((c :: l) :: ls, p.2)

/-- The literal `'progress'` compared against `parsed.type`. -/
def progressTag : Str := "progress".data

/-- Which parsed line counts as the final result: the validation launcher
tests `parsed.errors !== undefined`, the sort launcher
`parsed.stats !== undefined`. -/
def finFor : JobType → Json → Bool
  | .validation, j => j.errors
  | .sort, j => j.stats

/-- The body of the stdout line loop (`for (const line of lines)`):
skip blank lines, try `JSON.parse`; a progress object is pushed onto
`job.events`, a final-result-shaped object is held in `finalResult`,
anything else (including a parse failure) is discarded silently. -/
def onStdoutLine (p : Str → Option Json) (fin : Json → Bool)
    (ls : LaunchState) (line : Str) : LaunchState :=
  if trim line = [] then ls
  else
    match p line with
    | none => ls
    | some parsed =>
      if parsed.type = some progressTag then
        { ls with job := { ls.job with events := ls.job.events ++ [Event.progress parsed] } }
      else if fin parsed then
        { ls with finalResult := some parsed }
      else ls

/-- The `stdout.on('data')` handler: append the chunk to the rolling
buffer, split on newlines, keep the last (incomplete) segment as the new
buffer and run the line loop on the complete lines. -/
def onStdoutData (p : Str → Option Json) (fin : Json → Bool)
    (ls : LaunchState) (chunk : Str) : LaunchState :=
  let r := lineSplit (ls.stdoutBuffer ++ chunk)
  { r.1.foldl (onStdoutLine p fin) ls with stdoutBuffer := r.2 }

/-- The head of the `close` handler: `if (stdoutBuffer.trim()) try
{ finalResult = JSON.parse(stdoutBuffer.trim()) } catch { ... }` —
the trailing buffer is parsed whenever nonempty after trimming, with no
shape check, and on success it overwrites `finalResult`. -/
def parseTrailing (p : Str → Option Json) (ls : LaunchState) : Option Json :=
  if trim ls.stdoutBuffer = [] then ls.finalResult
  else
    match p (trim ls.stdoutBuffer) with
    | some j => some j
    | none => ls.finalResult

/-- The `close` handler (without the lock release, which acts on global
state): parse the trailing buffer, then map the exit code — `0` or `1`
gives `status = complete` with the captured result and a synthetic
`complete` event, anything else (including `null`) gives `status = error`
with the code and the stderr text; in both cases set `endTime`. -/
def onProcessClose (p : Str → Option Json) (now : Nat) (code : Option Int)
    (ls : LaunchState) : LaunchState :=
  let fr := parseTrailing p ls
  let job := ls.job
  let job :=
    if code = some 0 ∨ code = some 1 then
      { job with status := .complete, result := fr,
                 events := job.events ++ [Event.complete fr] }
    else
      { job with status := .error,
                 events := job.events ++ [Event.error (ErrMsg.exitedWithCode code) (some ls.stderrBuffer)] }
  { ls with job := { job with endTime := some now }, finalResult := fr }

/-- The `error` (spawn failure) handler of the validation launcher
(without the lock release): `status = 'error'`, push the error event,
set `endTime`. -/
def onProcessError (msg : Str) (now : Nat) (ls : LaunchState) : LaunchState :=
  { ls with
    job := { ls.job with
             status := .error,
             events := ls.job.events ++ [Event.error (ErrMsg.spawnFailed msg) none],
             endTime := some now } }

/-- `job.status === 'complete' || job.status === 'error'`, the terminality
test of the stream endpoint and the sweeper. -/
def isTerminal (s : JobStatus) : Bool :=
  s = .complete ∨ s = .error

/-- The observer-side state of one SSE connection in the stream `GET`
handler: the `eventIndex` cursor, whether `controller.close()` has run,
and whether the `setInterval` polling loop was started. -/
structure FeedState where
  eventIndex : Nat
  closed : Bool
  pollStarted : Bool
deriving DecidableEq, Repr

/-- The `start(controller)` body of the stream: replay `job.events` from
index 0, advance the cursor, and either close at once (job already
terminal — no polling loop) or start the 100 ms polling interval.
Returns the connection state and the list of events sent. -/
def connectFeed (job : Job) : FeedState × List Event :=
  let sent := job.events
  let idx := job.events.length
  if isTerminal job.status then
    ({ eventIndex := idx, closed := true, pollStarted := false }, sent)
  else
    ({ eventIndex := idx, closed := false, pollStarted := true }, sent)

/-- One tick of the polling interval, reading the (possibly grown) `job`
record: send `job.events` from the cursor on, advance the cursor, and
close the feed if the job is now terminal.  A closed feed sends nothing. -/
def pollTick (job : Job) (fs : FeedState) : FeedState × List Event :=
  if fs.closed then (fs, [])
  else
    let out := job.events.drop fs.eventIndex
    let idx := job.events.length
    if isTerminal job.status then
      ({ eventIndex := idx, closed := true, pollStarted := fs.pollStarted }, out)
    else
      ({ eventIndex := idx, closed := false, pollStarted := fs.pollStarted }, out)

/-- Run the polling loop over a sequence of snapshots of the job record
(one snapshot per tick), concatenating everything sent. -/
def runTicks (fs : FeedState) : List Job → FeedState × List Event
  | [] => (fs, [])
  | j :: js =>
    let r := pollTick j fs
    let r' := runTicks r.1 js
    (r'.1, r.2 ++ r'.2)

/-- A whole observer connection: the connect-time replay followed by the
polling loop over the later snapshots of the job record. -/
def runFeed (job0 : Job) (snaps : List Job) : FeedState × List Event :=
  let c := connectFeed job0
  let r := runTicks c.1 snaps
  (r.1, c.2 ++ r.2)

/-- The events of the last snapshot (or `cur` when there is none). -/
def finalEvents (cur : List Event) : List Job → List Event
  | [] => cur
  | j :: js => finalEvents j.events js

/-- The job record only ever grows its `events` list: each snapshot's
events extend the previous snapshot's as a prefix. -/
def EventsChain : List Event → List Job → Prop
  | _, [] => True
  | e, j :: js => (∃ t, j.events = e ++ t) ∧ EventsChain j.events js

/-- Every snapshot except possibly the last is still non-terminal
(the run under observation terminates at most at its last snapshot). -/
def NonTermButLast : List Job → Prop
  | [] => True
  | [_] => True
  | j :: js => isTerminal j.status = false ∧ NonTermButLast js

/-- The response of the stream `GET` endpoint: 404 `Job not found`, or an
open feed with its connect-time replay. -/
inductive StreamResp
  | notFound
  | feed (fs : FeedState) (replay : List Event)
deriving DecidableEq, Repr

/-- Association-list lookup (the embedding of `Map.get`).  Keys are
compared with decidable equality. -/
def alookup {α β : Type} [DecidableEq α] (k : α) : List (α × β) → Option β
  | [] => none
  | e :: r => if e.1 = k then some e.2 else alookup k r

/-- `Map.set`: replace in place when the key is present, append otherwise
(JS `Map` keeps insertion order and updates in place). -/
def aset {α β : Type} [DecidableEq α] (k : α) (v : β) : List (α × β) → List (α × β)
  | [] => [(k, v)]
  | e :: r => if e.1 = k then (k, v) :: r else e :: aset k v r

/-- `Map.delete`. -/
def aerase {α β : Type} [DecidableEq α] (k : α) : List (α × β) → List (α × β)
  | [] => []
  | e :: r => if e.1 = k then r else e :: aerase k r

/-- The per-launch control state that outlives the registry entry: the
closure-local buffers plus whether the child process can still fire
events (`openPhase = true` until its one terminal `error`/`close` event
has been delivered). -/
structure LaunchCtl where
  stdoutBuffer : Str := []
  stderrBuffer : Str := []
  finalResult : Option Json := none
  openPhase : Bool := true
deriving DecidableEq, Repr

/-- The process-wide mutable state of `jobManager.ts`:
`validationLock`, `activeJobs`, plus the heap of job records (the
registry maps ids to heap references so that closures alias records even
after eviction or overwrite), the per-launch control blocks,
a fresh-reference counter, and a ghost counter of
`releaseValidationLock()` calls. -/
structure GlobalState where
  validationLock : Bool := false
  activeJobs : List (Str × Nat) := []
  heap : List (Nat × Job) := []
  launches : List (Nat × LaunchCtl) := []
  nextRef : Nat := 0
  releaseCount : Nat := 0
deriving DecidableEq, Repr

/-- The empty registry at process start. -/
def initState : GlobalState := {}

/-- `tryAcquireValidationLock`: atomic check-and-set, `false` when the
lock is already held. -/
def tryAcquireValidationLock (g : GlobalState) : GlobalState × Bool :=
  if g.validationLock then (g, false)
  else ({ g with validationLock := true }, true)

/-- `releaseValidationLock`: unconditional reset.  The ghost
`releaseCount` counts the calls and has no influence on behaviour. -/
def releaseValidationLock (g : GlobalState) : GlobalState :=
  { g with validationLock := false, releaseCount := g.releaseCount + 1 }

/-- The fixed well-known id reused by every validation run. -/
def validationCurrentId : Str := "validation-current".data

/-- The response of the validation launch endpoint: HTTP 409 (conflict,
lock held) or 200 with the job id. -/
inductive VResp
  | conflict
  | ok (jobId : Str)
deriving DecidableEq, Repr

/-- The cleanup step of a granted validation launch: `const existingJob =
activeJobs.get(jobId); if (existingJob && (existingJob.status ===
'complete' || existingJob.status === 'error')) activeJobs.delete(jobId)`. -/
def cleanupStaleValidation (g : GlobalState) : GlobalState :=
  match alookup validationCurrentId g.activeJobs with
  | some r =>
    match alookup r g.heap with
    | some j =>
      if j.status = JobStatus.complete ∨ j.status = JobStatus.error then
        { g with activeJobs := aerase validationCurrentId g.activeJobs }
      else g
    | none => g
  | none => g

/-- The granted branch of a validation launch: evict a terminal record
under the well-known id, insert a fresh running record (a new heap
reference: the old record, if any, stays aliased by its own closures),
register its launch control and spawn the child process. -/
def grantedValidationState (now : Nat) (g : GlobalState) : GlobalState :=
  let g := cleanupStaleValidation g
  let r := g.nextRef
  let job : Job := { id := validationCurrentId, type := .validation, startTime := now,
                     status := .running, events := [], process := some r }
  { g with heap := aset r job g.heap,
           activeJobs := aset validationCurrentId r g.activeJobs,
           launches := aset r {} g.launches,
           nextRef := r + 1 }

/-- `POST /api/validate` (identically `triggerBackgroundValidation`):
try the lock — on failure answer 409 and touch nothing; on success run
the granted branch. -/
def postValidate (now : Nat) (g : GlobalState) : GlobalState × VResp :=
  let a := tryAcquireValidationLock g
  if !a.2 then (a.1, .conflict)
  else (grantedValidationState now a.1, .ok validationCurrentId)

/-- The sort `POST`: a freshly generated unique id per run (`randomUUID`
is embedded as an id parameter guarded to be fresh and distinct from the
well-known validation id), no lock, insert a running record and spawn. -/
def postSort (id : Str) (now : Nat) (g : GlobalState) : GlobalState × Option Str :=
  if (alookup id g.activeJobs).isSome ∨ id = validationCurrentId then (g, none)
  else
    let r := g.nextRef
    let job : Job := { id := id, type := .sort, startTime := now,
                       status := .running, events := [], process := some r }
    ({ g with heap := aset r job g.heap,
              activeJobs := aset id r g.activeJobs,
              launches := aset r {} g.launches,
              nextRef := r + 1 }, some id)

/-- A stdout `data` event of launch `r`: run the rolling-buffer parser on
the aliased job record (events may only fire while the launch is open). -/
def stepData (p : Str → Option Json) (r : Nat) (s : Str) (g : GlobalState) : GlobalState :=
  match alookup r g.launches, alookup r g.heap with
  | some ctl, some job =>
    if ctl.openPhase then
      let ls : LaunchState :=
        { job := job, stdoutBuffer := ctl.stdoutBuffer,
          stderrBuffer := ctl.stderrBuffer, finalResult := ctl.finalResult }
      let ls := onStdoutData p (finFor job.type) ls s
      let ctl' : LaunchCtl := { ctl with stdoutBuffer := ls.stdoutBuffer, finalResult := ls.finalResult }
      { g with heap := aset r ls.job g.heap, launches := aset r ctl' g.launches }
    else g
  | _, _ => g

/-- A stderr `data` event of launch `r`: accumulate the chunk. -/
def stepStderr (r : Nat) (s : Str) (g : GlobalState) : GlobalState :=
  match alookup r g.launches with
  | some ctl =>
    if ctl.openPhase then
      { g with launches := aset r { ctl with stderrBuffer := ctl.stderrBuffer ++ s } g.launches }
    else g
  | none => g

/-- The `error` (spawn failure) event of launch `r`.  Only the validation
launchers register an `error` handler (mark error, set `endTime`, release
the lock); the sort launcher registers none, so for a sort launch the
event merely ends the launch. -/
def stepSpawnError (r : Nat) (msg : Str) (now : Nat) (g : GlobalState) : GlobalState :=
  match alookup r g.launches, alookup r g.heap with
  | some ctl, some job =>
    if ctl.openPhase then
      let g := { g with launches := aset r { ctl with openPhase := false } g.launches }
      if job.type = .validation then
        let ls : LaunchState :=
          { job := job, stdoutBuffer := ctl.stdoutBuffer,
            stderrBuffer := ctl.stderrBuffer, finalResult := ctl.finalResult }
        let ls := onProcessError msg now ls
        releaseValidationLock { g with heap := aset r ls.job g.heap }
      else g
    else g
  | _, _ => g

/-- The `close` event of launch `r` with exit code `code` (`none` embeds
JS `null`, the code of a signal-killed child): run the close handler on
the aliased record and — validation only — release the lock. -/
def stepClose (p : Str → Option Json) (r : Nat) (code : Option Int) (now : Nat)
    (g : GlobalState) : GlobalState :=
  match alookup r g.launches, alookup r g.heap with
  | some ctl, some job =>
    if ctl.openPhase then
      let ls : LaunchState :=
        { job := job, stdoutBuffer := ctl.stdoutBuffer,
          stderrBuffer := ctl.stderrBuffer, finalResult := ctl.finalResult }
      let ls := onProcessClose p now code ls
      let ctl' : LaunchCtl := { ctl with finalResult := ls.finalResult, openPhase := false }
      let g := { g with heap := aset r ls.job g.heap, launches := aset r ctl' g.launches }
      if job.type = .validation then releaseValidationLock g else g
    else g
  | _, _ => g

/-- The eviction half of the sweeper-loop body: `if (job.endTime && now -
job.endTime > 5 * 60 * 1000) activeJobs.delete(jobId)`. -/
def sweepEvict (now : Nat) (jobId : Str) (job : Job) (g : GlobalState) : GlobalState :=
  match job.endTime with
  | some t => if 5 * 60 * 1000 < now - t then
                { g with activeJobs := aerase jobId g.activeJobs }
              else g
  | none => g

/-- The body of the sweeper loop for one registry entry `(jobId, ref)`:
evict a terminal record older than five minutes; force a record running
for more than thirty minutes to `error` (push the timeout event, set
`endTime`, send SIGTERM to the child — which does not end the launch: its
`close` event is still to come — and release the lock for validation). -/
def sweepEntry (now : Nat) (g : GlobalState) (e : Str × Nat) : GlobalState :=
  match alookup e.2 g.heap with
  | none => g
  | some job =>
    let g := sweepEvict now e.1 job g
    if job.status = .running ∧ 30 * 60 * 1000 < now - job.startTime then
      let job' : Job :=
        { job with status := .error,
                   events := job.events ++ [Event.error ErrMsg.timedOut none],
                   endTime := some now }
      let g := { g with heap := aset e.2 job' g.heap }
      if job.type = .validation then releaseValidationLock g else g
    else g

/-- One tick of the cleanup interval of `startCleanupInterval`: iterate
over the registry snapshot. -/
def stepSweep (now : Nat) (g : GlobalState) : GlobalState :=
  g.activeJobs.foldl (sweepEntry now) g

/-- The observable actions of the subsystem: the two launch endpoints,
the per-launch child-process events, and the sweeper tick. -/
inductive JobAction
  | postValidate (now : Nat)
  | postSort (id : Str) (now : Nat)
  | data (r : Nat) (s : Str)
  | stderrData (r : Nat) (s : Str)
  | spawnError (r : Nat) (msg : Str) (now : Nat)
  | close (r : Nat) (code : Option Int) (now : Nat)
  | sweep (now : Nat)

/-- The step function of the transition system (launch responses are
observed through `postValidate` / `postSort` directly). -/
def step (p : Str → Option Json) (g : GlobalState) : JobAction → GlobalState
  | .postValidate now => (postValidate now g).1
  | .postSort id now => (postSort id now g).1
  | .data r s => stepData p r s g
  | .stderrData r s => stepStderr r s g
  | .spawnError r msg now => stepSpawnError r msg now g
  | .close r code now => stepClose p r code now g
  | .sweep now => stepSweep now g

/-- The state reached from process start by a sequence of actions. -/
def reach (p : Str → Option Json) (acts : List JobAction) : GlobalState :=
  acts.foldl (step p) initState

/-- The stream `GET` endpoint head: look the job id up in the registry;
absent ⇒ 404 `Job not found` with no feed; present ⇒ open the feed with
its connect-time replay.  The handler never writes to the registry or any
job record, which the embedding reflects by being a pure function of the
state. -/
def getStream (g : GlobalState) (jobId : Str) : StreamResp :=
  match alookup jobId g.activeJobs with
  | none => .notFound
  | some r =>
    match alookup r g.heap with
    | none => .notFound
    | some job => .feed (connectFeed job).1 (connectFeed job).2

/-- A child process that emits no parseable JSON at all (the concrete
`JSON.parse` used by the bug traces, which need no stdout output). -/
def noJson : Str → Option Json := fun _ => none

/-- The timeout-race trace: a validation launch (reference 0) at time 0,
a sweeper tick past the 30-minute ceiling (forces the job to `error`,
SIGTERMs the child, releases the lock), a second validation launch
(reference 1) that now succeeds, and then the `close` event of the first,
killed child finally arriving — whose handler releases the lock again
although launch 1 still holds it. -/
def timeoutRaceTrace : List JobAction :=
  [ .postValidate 0,
    .sweep 1800001,
    .postValidate 1800002,
    .close 0 none 1800003 ]

/-- The plain timeout double-release trace: one validation launch, the
sweeper tick that times it out (first lock release), and the killed
child's `close` event (second lock release). -/
def doubleReleaseTrace : List JobAction :=
  [ .postValidate 0,
    .sweep 1800001,
    .close 0 none 1800002 ]

/-- A validation launch whose child exits immediately with code 0 and no
output on stdout. -/
def silentExitTrace : List JobAction :=
  [ .postValidate 0,
    .close 0 (some 0) 5 ]

-- Quick sanity checks of the string embedding and the line splitter.
example : ("ab".data : Str) = ['a', 'b'] := rfl
example : lineSplit "a\nb".data = (["a".data], "b".data) := rfl
example : lineSplit "a\n".data = (["a".data], []) := rfl
example : lineSplit "\nb".data = ([[]], "b".data) := rfl
example : lineSplit [] = ([], []) := rfl
example : trim "  a ".data = "a".data := rfl

/-- C1: the claim "at every reachable state at most one validation Job is
running; a validation-launch attempt made while one is running receives
the conflict signal (HTTP 409 / `return false`) and creates no new job"
fails on the code.  After a sweeper-forced timeout, a successful relaunch
and the late `close` event of the killed first child (which releases the
lock a second time), the registered `validation-current` job is still
`running`, yet a further launch attempt is granted (`ok`, not `conflict`)
and creates a new job. -/
theorem validation_mutex_violated_after_timeout_race :
    alookup validationCurrentId (reach noJson timeoutRaceTrace).activeJobs = some 1
    ∧ (alookup 1 (reach noJson timeoutRaceTrace).heap).map Job.status = some JobStatus.running
    ∧ (alookup 1 (reach noJson timeoutRaceTrace).heap).map Job.type = some JobType.validation
    ∧ (reach noJson timeoutRaceTrace).validationLock = false
    ∧ (postValidate 1800004 (reach noJson timeoutRaceTrace)).2 = VResp.ok validationCurrentId := by
  refine ⟨rfl, rfl, rfl, rfl, rfl⟩

/-- C3: the claim "the validation lock is released exactly once over all
terminal paths of a launch" fails on the code: for the single validation
launch of `doubleReleaseTrace`, `releaseValidationLock()` runs twice —
once in the sweeper's timeout branch and once more when the SIGTERM-killed
child's `close` event fires. -/
theorem lock_released_twice_on_timeout_path :
    (reach noJson doubleReleaseTrace).releaseCount = 2 := by
  rfl

/-- C4: the claim "status is monotonic — a terminal status is never
changed again, in particular never `error` → `complete`" fails on the
code: the sweeper forces a 30-minute-old running job to `error`, and the
subsequent `close` event with exit code 0 overwrites the status to
`complete`. -/
theorem status_error_to_complete_reachable :
    (alookup 0 (reach noJson [JobAction.postValidate 0, JobAction.sweep 1800001]).heap).map
        Job.status = some JobStatus.error
    ∧ (alookup 0 (reach noJson [JobAction.postValidate 0, JobAction.sweep 1800001,
          JobAction.close 0 (some 0) 1800002]).heap).map Job.status
        = some JobStatus.complete := by
  refine ⟨rfl, rfl⟩

/-- C2 counterexample: the claim "exit code 0 or 1 ⇒ status `complete`
with a *non-null* result" fails: a child that exits 0 without emitting
any parseable output leaves `finalResult = null`, and the job ends
`complete` with `result = null`. -/
theorem complete_with_null_result_reachable :
    (alookup 0 (reach noJson silentExitTrace).heap).map Job.status = some JobStatus.complete
    ∧ (alookup 0 (reach noJson silentExitTrace).heap).map Job.result = some none := by
  refine ⟨rfl, rfl⟩

/-- C5 counterexample: the claim "a terminal Job always has ... its
process handle cleared" fails: no code path ever clears `job.process`,
so after a normal exit the job is `complete` and still carries its
process handle. -/
theorem terminal_job_keeps_process_handle :
    (alookup 0 (reach noJson silentExitTrace).heap).map Job.status = some JobStatus.complete
    ∧ (alookup 0 (reach noJson silentExitTrace).heap).map Job.process = some (some 0)
    ∧ (alookup 0 (reach noJson silentExitTrace).heap).map Job.endTime = some (some 5) := by
  refine ⟨rfl, rfl, rfl⟩

/-- A final-result-shaped JSON line (`errors` field present), used by the
concrete pipeline traces. -/
def jsonA : Json := { errors := true, raw := "A".data }

/-- An arbitrary JSON line with neither a `type: 'progress'` marker nor an
`errors`/`stats` field. -/
def jsonB : Json := { raw := "B".data }

/-- A concrete `JSON.parse` recognizing exactly the two lines `A` and `B`. -/
def pAB : Str → Option Json := fun s =>
  if s = "A".data then some jsonA
  else if s = "B".data then some jsonB
  else none

/-- A freshly launched validation job record. -/
def runningJob : Job :=
  { id := validationCurrentId, type := .validation, startTime := 0,
    status := .running, events := [], process := some 0 }

/-- The launch-local state right after the spawn. -/
def ls0 : LaunchState := { job := runningJob }

/-- C2 (amended): for every exit of the subordinate process, code 0 or 1
gives final status `complete` with `result` set to the captured final
result — which is whatever `parseTrailing` yields and may be null — and
any other code (including the `null` code of a signal-killed child) gives
status `error` with `result` untouched. -/
theorem exit_code_mapping (p : Str → Option Json) (now : Nat) (code : Option Int)
    (ls : LaunchState) :
    (onProcessClose p now code ls).job.status =
      (if code = some 0 ∨ code = some 1 then JobStatus.complete else JobStatus.error)
    ∧ (onProcessClose p now code ls).job.result =
      (if code = some 0 ∨ code = some 1 then parseTrailing p ls else ls.job.result) := by
  unfold onProcessClose
  split_ifs with h <;> exact ⟨rfl, rfl⟩

/-- C7 counterexample: the claim "a final result captured from a streamed
line is not replaced by the trailing buffer" fails: the stream `A\nB`
(no trailing newline) first captures the final-result-shaped line `A`,
but on close the trailing buffer `B` parses as JSON and overwrites it,
so the job's result is `B`, not `A`. -/
theorem trailing_buffer_overwrites_streamed_result :
    (onStdoutData pAB (finFor .validation) ls0 "A\nB".data).finalResult = some jsonA
    ∧ (onProcessClose pAB 9 (some 0)
        (onStdoutData pAB (finFor .validation) ls0 "A\nB".data)).job.result = some jsonB
    ∧ jsonB ≠ jsonA := by
  refine ⟨rfl, rfl, by decide⟩

/-- C7 (amended): on process exit the trailing buffer, whenever nonempty
after trimming and parseable as JSON, becomes the final result — replacing
any final result previously captured from streamed lines; on exit code 0
or 1 that parse is also what lands in `job.result`. -/
theorem trailing_buffer_wins_on_close (p : Str → Option Json) (now : Nat)
    (code : Option Int) (ls : LaunchState) (j : Json)
    (h1 : ¬ trim ls.stdoutBuffer = [])
    (h2 : p (trim ls.stdoutBuffer) = some j) :
    (onProcessClose p now code ls).finalResult = some j
    ∧ (onProcessClose p now code ls).job.result =
      (if code = some 0 ∨ code = some 1 then some j else ls.job.result) := by
  unfold onProcessClose parseTrailing
  rw [if_neg h1, h2]
  split_ifs with h <;> exact ⟨rfl, rfl⟩

/-- Witness for `trailing_buffer_wins_on_close` at the concrete parser
`pAB`, buffer `B` and exit code 0. -/
theorem trailing_buffer_wins_on_close_witness :
    (onProcessClose pAB 9 (some 0) { job := runningJob, stdoutBuffer := "B".data }).finalResult
        = some jsonB
    ∧ (onProcessClose pAB 9 (some 0) { job := runningJob, stdoutBuffer := "B".data }).job.result =
      (if (some 0 : Option Int) = some 0 ∨ (some 0 : Option Int) = some 1 then some jsonB
       else ({ job := runningJob, stdoutBuffer := "B".data } : LaunchState).job.result) :=
  trailing_buffer_wins_on_close pAB 9 (some 0) _ jsonB (by decide) rfl

/-- C8: a stdout line that fails `JSON.parse` leaves the whole launch
state — in particular the job record, its `events` and its `status` —
unchanged; the parse failure is swallowed and never escalated. -/
theorem unparseable_line_leaves_job_unchanged (p : Str → Option Json)
    (fin : Json → Bool) (ls : LaunchState) (line : Str) (h : p line = none) :
    onStdoutLine p fin ls line = ls := by
  unfold onStdoutLine
  split
  · rfl
  · rw [h]

/-- Witness for `unparseable_line_leaves_job_unchanged` at the concrete
parser `pAB` and the non-JSON line `x`. -/
theorem unparseable_line_leaves_job_unchanged_witness :
    onStdoutLine pAB (finFor JobType.validation) ls0 "x".data = ls0 :=
  unparseable_line_leaves_job_unchanged pAB (finFor JobType.validation) ls0 "x".data rfl

/-- C10: connecting to the progress stream with a job id that is not in
the registry yields the 404 `Job not found` response and opens no feed;
`getStream` is a pure reader of the state, so no job is created or
modified. -/
theorem unknown_job_stream_not_found (g : GlobalState) (jobId : Str)
    (h : alookup jobId g.activeJobs = none) :
    getStream g jobId = StreamResp.notFound := by
  unfold getStream
  rw [h]

/-- Witness for `unknown_job_stream_not_found`: the empty registry at
process start knows no job id. -/
theorem unknown_job_stream_not_found_witness :
    getStream initState "nope".data = StreamResp.notFound :=
  unknown_job_stream_not_found initState "nope".data rfl

/-- Looking a key up after a `Map.set`. -/
theorem alookup_aset {α β : Type} [DecidableEq α] (k k' : α) (v : β)
    (l : List (α × β)) :
    alookup k (aset k' v l) = if k' = k then some v else alookup k l := by
  induction l with
  | nil =>
    by_cases h : k' = k <;> simp [aset, alookup, h]
  | cons e r ih =>
    by_cases h1 : e.1 = k'
    · by_cases h2 : k' = k
      · simp [aset, alookup, h1, h2]
      · have h3 : ¬ e.1 = k := fun h => h2 (h1.symm.trans h)
        simp [aset, alookup, h1, h2, h3]
    · by_cases h2 : e.1 = k
      · have h3 : ¬ k' = k := fun h => h1 (h2.trans h.symm)
        have h4 : ¬ k = k' := fun h => h1 (h2.trans h)
        simp [aset, alookup, h1, h2, h3, h4]
      · simp [aset, alookup, h1, h2, ih]


/-- The amended C5 invariant over a heap of job records: every record in
a terminal status carries an `endTime`. -/
def HeapOK (hp : List (Nat × Job)) : Prop :=
  ∀ r job, alookup r hp = some job → job.status ≠ JobStatus.running →
    job.endTime.isSome = true

theorem heapOK_aset {hp : List (Nat × Job)} {r : Nat} {j : Job}
    (h : HeapOK hp) (hj : j.status ≠ JobStatus.running → j.endTime.isSome = true) :
    HeapOK (aset r j hp) := by
  intro r' job' hl hs
  rw [alookup_aset] at hl
  split at hl
  · cases hl
    exact hj hs
  · exact h r' job' hl hs

theorem cleanupStaleValidation_heap (g : GlobalState) :
    (cleanupStaleValidation g).heap = g.heap := by
  unfold cleanupStaleValidation
  split
  · split
    · split_ifs <;> rfl
    · rfl
  · rfl

theorem onStdoutLine_status (p : Str → Option Json) (fin : Json → Bool)
    (ls : LaunchState) (line : Str) :
    (onStdoutLine p fin ls line).job.status = ls.job.status
    ∧ (onStdoutLine p fin ls line).job.endTime = ls.job.endTime := by
  unfold onStdoutLine
  split
  · exact ⟨rfl, rfl⟩
  · split
    · exact ⟨rfl, rfl⟩
    · split_ifs <;> exact ⟨rfl, rfl⟩

theorem foldl_onStdoutLine_status (p : Str → Option Json) (fin : Json → Bool)
    (lines : List Str) : ∀ ls : LaunchState,
    (lines.foldl (onStdoutLine p fin) ls).job.status = ls.job.status
    ∧ (lines.foldl (onStdoutLine p fin) ls).job.endTime = ls.job.endTime := by
  induction lines with
  | nil => exact fun ls => ⟨rfl, rfl⟩
  | cons l rest ih =>
    intro ls
    have h1 := onStdoutLine_status p fin ls l
    have h2 := ih (onStdoutLine p fin ls l)
    exact ⟨h2.1.trans h1.1, h2.2.trans h1.2⟩

theorem onStdoutData_status (p : Str → Option Json) (fin : Json → Bool)
    (ls : LaunchState) (chunk : Str) :
    (onStdoutData p fin ls chunk).job.status = ls.job.status
    ∧ (onStdoutData p fin ls chunk).job.endTime = ls.job.endTime :=
  foldl_onStdoutLine_status p fin (lineSplit (ls.stdoutBuffer ++ chunk)).1 ls

theorem grantedValidationState_heapOK (now : Nat) (g : GlobalState)
    (h : HeapOK g.heap) : HeapOK (grantedValidationState now g).heap := by
  refine heapOK_aset ?_ (fun hs => absurd rfl hs)
  rw [cleanupStaleValidation_heap]
  exact h

theorem postValidate_heapOK (now : Nat) (g : GlobalState) (h : HeapOK g.heap) :
    HeapOK (postValidate now g).1.heap := by
  unfold postValidate tryAcquireValidationLock
  by_cases hl : g.validationLock <;> simp only [hl, if_true, if_false,
    Bool.not_true, Bool.not_false, Bool.false_eq_true, Bool.true_eq_false]
  · exact h
  · exact grantedValidationState_heapOK now _ h

theorem postSort_heapOK (id : Str) (now : Nat) (g : GlobalState) (h : HeapOK g.heap) :
    HeapOK (postSort id now g).1.heap := by
  unfold postSort
  split_ifs with hc
  · exact h
  · exact heapOK_aset h (fun hs => absurd rfl hs)

theorem stepData_heapOK (p : Str → Option Json) (r : Nat) (s : Str)
    (g : GlobalState) (h : HeapOK g.heap) : HeapOK (stepData p r s g).heap := by
  unfold stepData
  rcases hc : alookup r g.launches with _ | ctl
  · exact h
  rcases hj : alookup r g.heap with _ | job
  · exact h
  by_cases ho : ctl.openPhase
  · simp only [ho, if_true]
    refine heapOK_aset h (fun hs => ?_)
    have hst := onStdoutData_status p (finFor job.type)
      { job := job, stdoutBuffer := ctl.stdoutBuffer,
        stderrBuffer := ctl.stderrBuffer, finalResult := ctl.finalResult } s
    rw [hst.2]
    rw [hst.1] at hs
    exact h r job hj hs
  · simp only [ho, if_false]
    exact h

theorem stepStderr_heapOK (r : Nat) (s : Str) (g : GlobalState) (h : HeapOK g.heap) :
    HeapOK (stepStderr r s g).heap := by
  unfold stepStderr
  rcases hc : alookup r g.launches with _ | ctl
  · exact h
  by_cases ho : ctl.openPhase <;> simp only [ho, if_true, if_false] <;> exact h

theorem stepSpawnError_heapOK (r : Nat) (msg : Str) (now : Nat) (g : GlobalState)
    (h : HeapOK g.heap) : HeapOK (stepSpawnError r msg now g).heap := by
  unfold stepSpawnError
  rcases hc : alookup r g.launches with _ | ctl
  · exact h
  rcases hj : alookup r g.heap with _ | job
  · exact h
  by_cases ho : ctl.openPhase
  · by_cases ht : job.type = JobType.validation <;>
      simp only [ho, ht, if_true, if_false] <;>
      first
        | exact heapOK_aset h (fun _ => rfl)
        | exact h
  · simp only [ho, if_false]
    exact h

theorem stepClose_heapOK (p : Str → Option Json) (r : Nat) (code : Option Int)
    (now : Nat) (g : GlobalState) (h : HeapOK g.heap) :
    HeapOK (stepClose p r code now g).heap := by
  unfold stepClose
  rcases hc : alookup r g.launches with _ | ctl
  · exact h
  rcases hj : alookup r g.heap with _ | job
  · exact h
  by_cases ho : ctl.openPhase
  · by_cases ht : job.type = JobType.validation <;>
      simp only [ho, ht, if_true, if_false] <;>
      exact heapOK_aset h (fun _ => rfl)
  · simp only [ho, if_false]
    exact h

theorem sweepEvict_heap (now : Nat) (jobId : Str) (job : Job) (g : GlobalState) :
    (sweepEvict now jobId job g).heap = g.heap := by
  unfold sweepEvict
  split
  · split_ifs <;> rfl
  · rfl

theorem sweepEntry_heapOK (now : Nat) (g : GlobalState) (e : Str × Nat)
    (h : HeapOK g.heap) : HeapOK (sweepEntry now g e).heap := by
  unfold sweepEntry
  split
  · exact h
  · rename_i job
    split_ifs with hrun hty
    · refine heapOK_aset ?_ (fun _ => rfl)
      rw [sweepEvict_heap]
      exact h
    · refine heapOK_aset ?_ (fun _ => rfl)
      rw [sweepEvict_heap]
      exact h
    · intro r' job' hl hs
      rw [sweepEvict_heap] at hl
      exact h r' job' hl hs

theorem stepSweep_heapOK (now : Nat) (g : GlobalState) (h : HeapOK g.heap) :
    HeapOK (stepSweep now g).heap := by
  unfold stepSweep
  generalize g.activeJobs = es
  induction es generalizing g with
  | nil => exact h
  | cons e rest ih => exact ih (sweepEntry now g e) (sweepEntry_heapOK now g e h)

theorem step_heapOK (p : Str → Option Json) (g : GlobalState) (a : JobAction)
    (h : HeapOK g.heap) : HeapOK (step p g a).heap := by
  cases a with
  | postValidate now => exact postValidate_heapOK now g h
  | postSort id now => exact postSort_heapOK id now g h
  | data r s => exact stepData_heapOK p r s g h
  | stderrData r s => exact stepStderr_heapOK r s g h
  | spawnError r msg now => exact stepSpawnError_heapOK r msg now g h
  | close r code now => exact stepClose_heapOK p r code now g h
  | sweep now => exact stepSweep_heapOK now g h

theorem reach_heapOK (p : Str → Option Json) (acts : List JobAction) :
    HeapOK (reach p acts).heap := by
  unfold reach
  have h0 : HeapOK (initState.heap) := fun r job hl => by cases hl
  generalize initState = g0 at h0 ⊢
  induction acts generalizing g0 with
  | nil => exact h0
  | cons a rest ih => exact ih (step p g0 a) (step_heapOK p g0 a h0)

/-- C5 (amended): every job record of any reachable state that is in a
terminal status (`complete` or `error`) has `endTime` set.  (The process
handle, by contrast, is never cleared — see
`terminal_job_keeps_process_handle`.) -/
theorem terminal_job_has_endTime (p : Str → Option Json) (acts : List JobAction)
    (r : Nat) (job : Job) (h : alookup r (reach p acts).heap = some job)
    (ht : job.status ≠ JobStatus.running) : job.endTime.isSome = true :=
  reach_heapOK p acts r job h ht

/-- The record reached by `silentExitTrace`, for the witness below. -/
def jobAfterSilentExit : Job :=
  { id := validationCurrentId, type := JobType.validation, startTime := 0,
    status := JobStatus.complete, events := [Event.complete none],
    process := some 0, result := none, endTime := some 5 }

/-- Witness for `terminal_job_has_endTime` at the `silentExitTrace`. -/
theorem terminal_job_has_endTime_witness :
    jobAfterSilentExit.endTime.isSome = true :=
  terminal_job_has_endTime noJson silentExitTrace 0 jobAfterSilentExit rfl
    (by decide)

/-- Prepending a carried-over segment to the first line of a later
split (the algebra of the rolling buffer). -/
def prependSeg (s : Str) (q : List Str × Str) : List Str × Str :=
  match q.1 with
  | [] => ([], s ++ q.2)
  | l :: ls => ((s ++ l) :: ls, q.2)

/-- A carried-over empty segment changes nothing. -/
theorem prependSeg_nil (q : List Str × Str) : prependSeg [] q = q := by
  cases q with
  | mk q1 q2 => cases q1 <;> simp [prependSeg]

/-- A newline-free text splits into no complete line and itself as the
trailing segment. -/
theorem lineSplit_no_nl (s : Str) (h : '\n' ∉ s) : lineSplit s = ([], s) := by
  induction s with
  | nil => rfl
  | cons c r ih =>
    have hc : ¬ c = '\n' := fun hh => h (hh ▸ List.mem_cons_self c r)
    have hr : '\n' ∉ r := fun hm => h (List.mem_cons_of_mem c hm)
    simp [lineSplit, hc, ih hr]

/-- The trailing segment of a split never contains a newline. -/
theorem lineSplit_snd_no_nl (s : Str) : '\n' ∉ (lineSplit s).2 := by
  induction s with
  | nil => simp [lineSplit]
  | cons c r ih =>
    by_cases hc : c = '\n'
    · simpa [lineSplit, hc] using ih
    · cases h1 : (lineSplit r).1 with
      | nil =>
        simp [lineSplit, hc, h1]
        exact ⟨fun hh => hc hh.symm, ih⟩
      | cons l ls =>
        simpa [lineSplit, hc, h1] using ih

/-- How splitting distributes over concatenation: the complete lines of
`a ++ b` are those of `a` followed by those of `b` with `a`'s trailing
segment glued onto `b`'s first line. -/
theorem lineSplit_append (a b : Str) :
    lineSplit (a ++ b) =
      ((lineSplit a).1 ++ (prependSeg (lineSplit a).2 (lineSplit b)).1,
       (prependSeg (lineSplit a).2 (lineSplit b)).2) := by
  induction a with
  | nil =>
    simp [lineSplit, prependSeg_nil]
  | cons c a ih =>
    by_cases hc : c = '\n'
    · simp [lineSplit, hc, ih]
    · cases h1 : (lineSplit a).1 with
      | nil =>
        cases h2 : (lineSplit b).1 <;>
          simp [lineSplit, hc, ih, prependSeg, h1, h2]
      | cons l ls =>
        simp [lineSplit, hc, ih, prependSeg, h1]

/-- The line handler neither reads nor writes the rolling buffer. -/
theorem onStdoutLine_buffer (p : Str → Option Json) (fin : Json → Bool)
    (ls : LaunchState) (s line : Str) :
    onStdoutLine p fin { ls with stdoutBuffer := s } line
      = { onStdoutLine p fin ls line with stdoutBuffer := s } := by
  unfold onStdoutLine
  split
  · rfl
  · split
    · rfl
    · split_ifs <;> rfl

/-- The line loop neither reads nor writes the rolling buffer. -/
theorem foldl_onStdoutLine_buffer (p : Str → Option Json) (fin : Json → Bool)
    (lines : List Str) : ∀ (ls : LaunchState) (s : Str),
    lines.foldl (onStdoutLine p fin) { ls with stdoutBuffer := s }
      = { lines.foldl (onStdoutLine p fin) ls with stdoutBuffer := s } := by
  induction lines with
  | nil => exact fun ls s => rfl
  | cons l rest ih =>
    intro ls s
    show rest.foldl (onStdoutLine p fin) (onStdoutLine p fin { ls with stdoutBuffer := s } l)
      = { (l :: rest).foldl (onStdoutLine p fin) ls with stdoutBuffer := s }
    rw [onStdoutLine_buffer, ih]
    rfl

/-- The `data` handler is a monoid action on chunks: feeding `a` then
`b` equals feeding `a ++ b`. -/
theorem onStdoutData_append (p : Str → Option Json) (fin : Json → Bool)
    (ls : LaunchState) (a b : Str) :
    onStdoutData p fin (onStdoutData p fin ls a) b = onStdoutData p fin ls (a ++ b) := by
  unfold onStdoutData
  dsimp only
  rw [show ls.stdoutBuffer ++ (a ++ b) = (ls.stdoutBuffer ++ a) ++ b from
        (List.append_assoc ls.stdoutBuffer a b).symm]
  rw [lineSplit_append (lineSplit (ls.stdoutBuffer ++ a)).2 b,
      lineSplit_no_nl (lineSplit (ls.stdoutBuffer ++ a)).2 (lineSplit_snd_no_nl _),
      lineSplit_append (ls.stdoutBuffer ++ a) b]
  dsimp only
  rw [List.foldl_append, foldl_onStdoutLine_buffer]
  simp only [List.foldl_nil, List.nil_append]
  rw [foldl_onStdoutLine_buffer, List.foldl_append]

/-- C9: the rolling-buffer newline parser is chunking-invariant: for
every way of splitting the output text into `data` chunks, the resulting
launch state — in particular the appended progress events, in order, and
the captured final result — is the one obtained by delivering the whole
text as a single chunk. -/
theorem chunking_invariance (p : Str → Option Json) (fin : Json → Bool)
    (chunks : List Str) : ∀ ls : LaunchState, '\n' ∉ ls.stdoutBuffer →
    chunks.foldl (onStdoutData p fin) ls = onStdoutData p fin ls chunks.flatten := by
  induction chunks with
  | nil =>
    intro ls h
    show ls = onStdoutData p fin ls []
    unfold onStdoutData
    rw [List.append_nil, lineSplit_no_nl ls.stdoutBuffer h]
    rfl
  | cons c cs ih =>
    intro ls h
    show cs.foldl (onStdoutData p fin) (onStdoutData p fin ls c)
      = onStdoutData p fin ls (List.flatten (c :: cs))
    rw [ih (onStdoutData p fin ls c) (lineSplit_snd_no_nl (ls.stdoutBuffer ++ c)),
        onStdoutData_append]
    rfl

/-- Witness for `chunking_invariance`: the two-chunk split of
`A\nB\n` at the fresh launch state. -/
theorem chunking_invariance_witness :
    (["A".data, "\nB\n".data] : List Str).foldl
        (onStdoutData pAB (finFor JobType.validation)) ls0
      = onStdoutData pAB (finFor JobType.validation) ls0
          (["A".data, "\nB\n".data] : List Str).flatten :=
  chunking_invariance pAB (finFor JobType.validation) ["A".data, "\nB\n".data] ls0
    (by decide)

/-- An open feed's poll tick: send the delta since the cursor, advance
the cursor, close when the job is terminal. -/
theorem pollTick_open (j : Job) (fs : FeedState) (h : fs.closed = false) :
    pollTick j fs =
      ({ eventIndex := j.events.length, closed := isTerminal j.status,
         pollStarted := fs.pollStarted }, j.events.drop fs.eventIndex) := by
  unfold pollTick
  rw [h]
  simp only [Bool.false_eq_true, if_false]
  split_ifs with ht
  · rw [ht]
  · rw [Bool.not_eq_true] at ht
    rw [ht]

/-- Over prefix-monotone snapshots with at most the last one terminal,
the polling loop emits exactly the missing suffix of the final events. -/
theorem runTicks_concat (snaps : List Job) : ∀ (cur : List Event) (fs : FeedState),
    fs.eventIndex = cur.length → fs.closed = false →
    EventsChain cur snaps → NonTermButLast snaps →
    cur ++ (runTicks fs snaps).2 = finalEvents cur snaps := by
  induction snaps with
  | nil =>
    intro cur fs _ _ _ _
    show cur ++ [] = cur
    exact List.append_nil cur
  | cons j js ih =>
    intro cur fs h1 h2 hchain hterm
    obtain ⟨⟨t, ht⟩, hchain'⟩ := hchain
    have hout : (pollTick j fs).2 = t := by
      rw [pollTick_open j fs h2, ht, h1]
      exact List.drop_left cur t
    show cur ++ ((pollTick j fs).2 ++ (runTicks (pollTick j fs).1 js).2)
      = finalEvents j.events js
    cases js with
    | nil =>
      show cur ++ ((pollTick j fs).2 ++ []) = j.events
      rw [List.append_nil, hout, ← ht]
    | cons j' js' =>
      obtain ⟨htm, hterm'⟩ := hterm
      have hfs1 : (pollTick j fs).1 =
          { eventIndex := j.events.length, closed := false,
            pollStarted := fs.pollStarted } := by
        rw [pollTick_open j fs h2, htm]
      rw [← List.append_assoc, hout, ← ht, hfs1]
      exact ih j.events _ rfl rfl hchain' hterm'

/-- The connect-time replay is always the full current events list. -/
theorem connectFeed_snd (job : Job) : (connectFeed job).2 = job.events := by
  unfold connectFeed
  split_ifs <;> rfl

/-- The tail of a non-terminal-but-last chain is one again. -/
theorem nonTermButLast_tail (j : Job) (js : List Job)
    (h : NonTermButLast (j :: js)) : NonTermButLast js := by
  cases js with
  | nil => trivial
  | cons j' js' => exact h.2

/-- C6: an observer connecting after `N` events were appended receives
all `N` first (the connect-time replay is exactly `job0.events`), in
append order, before any later event — over any prefix-monotone run of
snapshots the total emission is exactly the final events list — and if
the job is already terminal at connect time the feed replays everything
and closes immediately with no polling loop started. -/
theorem late_subscriber_replay (job0 : Job) (snaps : List Job)
    (hchain : EventsChain job0.events snaps)
    (hterm : NonTermButLast (job0 :: snaps)) :
    (runFeed job0 snaps).2 = finalEvents job0.events snaps
    ∧ (∃ rest, (runFeed job0 snaps).2 = job0.events ++ rest)
    ∧ (isTerminal job0.status = true →
        (connectFeed job0).1.closed = true
        ∧ (connectFeed job0).1.pollStarted = false
        ∧ (connectFeed job0).2 = job0.events) := by
  by_cases hts : isTerminal job0.status = true
  · cases snaps with
    | nil =>
      have hconn : connectFeed job0 =
          ({ eventIndex := job0.events.length, closed := true,
             pollStarted := false }, job0.events) := by
        unfold connectFeed
        rw [hts]
        rfl
      refine ⟨?_, ⟨[], ?_⟩, fun _ => ?_⟩
      · show (connectFeed job0).2 ++ (runTicks (connectFeed job0).1 []).2
          = job0.events
        show (connectFeed job0).2 ++ [] = job0.events
        rw [List.append_nil, connectFeed_snd]
      · show (connectFeed job0).2 ++ [] = job0.events ++ []
        rw [connectFeed_snd]
      · rw [hconn]
        exact ⟨rfl, rfl, rfl⟩
    | cons s ss =>
      have hfalse : isTerminal job0.status = false := hterm.1
      rw [hts] at hfalse
      cases hfalse
  · have hfalse : isTerminal job0.status = false := by
      rwa [Bool.not_eq_true] at hts
    have hconn : connectFeed job0 =
        ({ eventIndex := job0.events.length, closed := false,
           pollStarted := true }, job0.events) := by
      unfold connectFeed
      rw [hfalse]
      rfl
    have htail : NonTermButLast snaps := nonTermButLast_tail job0 snaps hterm
    refine ⟨?_, ⟨(runTicks (connectFeed job0).1 snaps).2, ?_⟩,
      fun hh => absurd hh hts⟩
    · show (connectFeed job0).2 ++ (runTicks (connectFeed job0).1 snaps).2
        = finalEvents job0.events snaps
      rw [hconn]
      exact runTicks_concat snaps job0.events _ rfl rfl hchain htail
    · show (connectFeed job0).2 ++ (runTicks (connectFeed job0).1 snaps).2
        = job0.events ++ (runTicks (connectFeed job0).1 snaps).2
      rw [connectFeed_snd]

/-- Witness for `late_subscriber_replay`: connecting to the
already-terminal job of `silentExitTrace`. -/
theorem late_subscriber_replay_witness :
    (runFeed jobAfterSilentExit []).2 = finalEvents jobAfterSilentExit.events []
    ∧ (connectFeed jobAfterSilentExit).1.closed = true
    ∧ (connectFeed jobAfterSilentExit).1.pollStarted = false := by
  have h := late_subscriber_replay jobAfterSilentExit [] trivial trivial
  exact ⟨h.1, (h.2.2 rfl).1, (h.2.2 rfl).2.1⟩
